import Mathlib

/-!
Shallow embedding of `systematic_trading/datasets/knowledge_graph/stocks.py`.

The program is a four-stage, file-checkpointed pipeline over a pandas
DataFrame of stock rows.  We model:

* a DataFrame as a `List Row` (one structure field per column; a column that
  has not been added yet, or a missing/NaN cell, is modelled as the empty
  string — the code calls `fillna("")` before reading string cells);
* the filesystem as a partial map from path strings to tables (both the
  `.csv` and the `.pkl` codec store the table itself; the spec treats the
  two codecs as pure format translators);
* the mutable `self.dataset_df` plus the filesystem as the program state
  `PState`;
* external collaborators (the two HTTP fetchers, the browser session with
  BeautifulSoup anchor extraction, `urllib.parse.quote_plus`, and
  `Wikipedia.select_pages`) as function parameters;
* a raised exception (e.g. `pd.read_csv` on a missing file) as `none`.
-/

namespace Stocks

/-- One row of the working table: the columns of the merged fetcher output
(`symbol`, `security`, `country`, `gics_sector`, `gics_sub_industry`) plus
the three columns added by the later stages (`wikipedia_title`,
`wikipedia_page`, `categories`); a column not yet added holds `""`. -/
structure Row where
  symbol : String
  security : String
  country : String
  gics_sector : String
  gics_sub_industry : String
  wikipedia_title : String
  wikipedia_page : String
  categories : String
deriving Repr, DecidableEq

abbrev Table := List Row

/-- Program state: the on-disk files plus the in-memory `self.dataset_df`. -/
structure PState where
  fs : String → Option Table
  dataset_df : Table

/-- `os.path.join("data", "stocks.raw.csv")`. -/
def path_raw : String := "data/stocks.raw.csv"

/-- `os.path.join("data", "stocks.title.csv")`. -/
def path_title : String := "data/stocks.title.csv"

/-- `os.path.join("data", "stocks.page.pkl")`. -/
def path_page : String := "data/stocks.page.pkl"

/-- `os.path.join("data", "stocks.csv")`. -/
def path_final : String := "data/stocks.csv"

/-- Point update of the modelled filesystem. -/
def fsWrite (fs : String → Option Table) (p : String) (t : Table) :
    String → Option Table :=
  fun q => if q = p then some t else fs q

/-- Python `str.endswith`, as a computation on the character lists. -/
def ends_with (s suffix : String) : Bool :=
  suffix.data.isSuffixOf s.data

/-- Python `str.startswith`, as a computation on the character lists. -/
def starts_with (s pre : String) : Bool :=
  pre.data.isPrefixOf s.data

/-- Python `str.strip()`: drop whitespace from both ends. -/
def strip (s : String) : String :=
  String.mk (((s.data.dropWhile Char.isWhitespace).reverse.dropWhile
    Char.isWhitespace).reverse)

/-- Python `str.split(sep)` for a one-character separator (the code only
splits on `"/"`); `acc` holds the current field reversed. -/
def split_on_char (sep : Char) : List Char → List Char → List String
  | [], acc => [String.mk acc.reverse]
  | c :: cs, acc =>
    if c = sep then String.mk acc.reverse :: split_on_char sep cs []
    else split_on_char sep cs (c :: acc)

/-- `Stocks.__load`: `pd.read_csv` / `pd.read_pickle` dispatched on the file
extension; a path matching neither branch leaves `self.dataset_df` untouched.
Reading a missing file raises, modelled by `none`. -/
def load (path : String) (st : PState) : Option PState :=
  if ends_with path ".csv" then
    (st.fs path).map (fun df => { st with dataset_df := df })
  else if ends_with path ".pkl" then
    (st.fs path).map (fun df => { st with dataset_df := df })
  else
    some st

/-- `Stocks.__save`: `to_csv` / `to_pickle` dispatched on the file extension;
a path matching neither branch writes nothing. -/
def save (path : String) (st : PState) : PState :=
  if ends_with path ".csv" then
    { st with fs := fsWrite st.fs path st.dataset_df }
  else if ends_with path ".pkl" then
    { st with fs := fsWrite st.fs path st.dataset_df }
  else
    st

/-- `DataFrame.drop_duplicates(subset=["symbol"], keep="first")`: keep a row
iff its symbol has not occurred earlier; `seen` accumulates the symbols of
the rows kept so far. -/
def drop_duplicates_from (seen : List String) : Table → Table
  | [] => []
  | r :: rs =>
    if r.symbol ∈ seen then drop_duplicates_from seen rs
    else r :: drop_duplicates_from (r.symbol :: seen) rs

def drop_duplicates (df : Table) : Table := drop_duplicates_from [] df

/-- Row comparison used by `sort_values(by=["symbol"])`. -/
def rowLe (a b : Row) : Prop := a.symbol ≤ b.symbol

instance : DecidableRel rowLe :=
  fun a b => inferInstanceAs (Decidable (a.symbol ≤ b.symbol))

instance : IsTotal Row rowLe := ⟨fun a b => le_total a.symbol b.symbol⟩

instance : IsTrans Row rowLe := ⟨fun _ _ _ h h' => le_trans h h'⟩

/-- `sort_values(by=["symbol"])`: after the preceding `drop_duplicates` the
keys are distinct, so any comparison sort produces this order; we use
insertion sort.  `reset_index(drop=True)` is the identity in the positional
list model. -/
def sort_values (df : Table) : Table := df.insertionSort rowLe

/-- The table built by `Stocks.__download` from the two fetcher outputs:
`pd.concat`, then `drop_duplicates(subset=["symbol"], keep="first")`, then
`sort_values(by=["symbol"])` and `reset_index(drop=True)`. -/
def merged_table (nasdaq sp500 : Table) : Table :=
  sort_values (drop_duplicates (nasdaq ++ sp500))

/-- `Stocks.__download`.  The two fetchers (`__download_nasdaq`,
`__download_sp500`) are external HTTP collaborators; their outputs are the
parameters `nasdaq` and `sp500`. -/
def download (nasdaq sp500 : Table) (st : PState) : PState :=
  if (st.fs path_raw).isSome then st
  else save path_raw { st with dataset_df := merged_table nasdaq sp500 }

/-- An `<a>` element as BeautifulSoup presents it: its `href` attribute and
its visible text (anchors without an `href` are filtered out by the code
before this model sees them, so every modelled anchor has one). -/
structure Anchor where
  href : String
  text : String
deriving Repr, DecidableEq

/-- The search URL built in `__add_wikipedia_title`:
`"https://www.google.com/search?hl=en&q=" + quote_plus(row["security"] + " company")`.
`quote_plus` is `urllib`'s encoder, an external collaborator passed as `qp`. -/
def google_url (qp : String → String) (security : String) : String :=
  "https://www.google.com/search?hl=en&q=" ++ qp (security ++ " company")

/-- The list comprehension over `soup.find_all("a")`: keep `a["href"]` when
the href starts with the fixed encyclopedia domain and the stripped visible
text equals the fixed label `"Wikipedia"`. -/
def wikipedia_hrefs (anchors : List Anchor) : List String :=
  (anchors.filter (fun a =>
    starts_with a.href "https://en.wikipedia.org/" && strip a.text == "Wikipedia")).map
    Anchor.href

/-- `href.split("/")[-1].replace("_", " ")` (Python `str.split` with an
explicit separator keeps empty fields, as `split_on_char` does;
`split_on_char` never returns `[]`, so the default of `getLastD` is never
used; `replace` with one-character arguments is a character map). -/
def wikipedia_name_of_href (href : String) : String :=
  String.mk (((split_on_char '/' href.data []).getLastD "").data.map
    (fun c => if c = '_' then ' ' else c))

/-- The effect of one search on one row: with zero matching anchors the row
is left as is (`continue`); otherwise the first matching href's derived name
is stored in `wikipedia_title`. -/
def row_search_result (ga : String → List Anchor) (qp : String → String)
    (r : Row) : Row :=
  match wikipedia_hrefs (ga (google_url qp r.security)) with
  | [] => r
  | href :: _ => { r with wikipedia_title := wikipedia_name_of_href href }

/-- Whether the resolution loop reaches the search for index `i` of the
table it started from: the row exists, is not among the first six
(`if index < 6: continue`), and its title is still empty
(`if row["wikipedia_title"]: continue`). -/
def searched_pred (df : Table) (i : Nat) : Bool :=
  match df[i]? with
  | some r => decide (6 ≤ i) && (r.wikipedia_title == "")
  | none => false

/-- The row stored at index `i` once the loop has passed it, as a function
of the table the loop started from. -/
def loop_row_result (ga : String → List Anchor) (qp : String → String)
    (df : Table) (i : Nat) : Option Row :=
  match df[i]? with
  | none => none
  | some r =>
    if 6 ≤ i ∧ r.wikipedia_title = "" then some (row_search_result ga qp r)
    else some r

/-- The `for index, row in self.dataset_df.iterrows()` loop of
`__add_wikipedia_title`, iterating the index positions in order.  `ga`
models the browser drive-and-parse step (navigate to the URL, sleep, read
the rendered body, `soup.find_all("a")`).  Besides the state after the loop
we record the list of indices for which a search was actually performed, so
that skipping and retry behaviour is observable.  After each successful
resolution the whole table is saved to the title file
(`self.__save(path=path_tgt)` inside the loop). -/
def title_loop (ga : String → List Anchor) (qp : String → String) :
    List Nat → PState → PState × List Nat
  | [], st => (st, [])
  | i :: is, st =>
    match st.dataset_df[i]? with
    | none => title_loop ga qp is st
    | some row =>
      if i < 6 then title_loop ga qp is st
      else if row.wikipedia_title ≠ "" then title_loop ga qp is st
      else
        match wikipedia_hrefs (ga (google_url qp row.security)) with
        | [] =>
          let p := title_loop ga qp is st
          (p.1, i :: p.2)
        | href :: _ =>
          let name := wikipedia_name_of_href href
          let df := st.dataset_df.set i { row with wikipedia_title := name }
          let st1 := save path_title { st with dataset_df := df }
          let p := title_loop ga qp is st1
          (p.1, i :: p.2)

/-- `self.dataset_df.loc[:, "wikipedia_title"] = ""` (after `fillna("")`,
which is the identity in this total-string model): every row starts the
loop with an empty title. -/
def reset_titles (df : Table) : Table :=
  df.map (fun r => { r with wikipedia_title := "" })

/-- `Stocks.__add_wikipedia_title`.  Returns immediately when the title file
exists; otherwise loads the raw file (raising — `none` — if absent), fills
missing cells with `""` (identity in this model), adds an empty
`wikipedia_title` column, runs the browser loop over all index positions,
and saves the title file once more at the end.  The browser session setup
and the operator prompt have no effect on the modelled state.  The second
component of the result is the loop's search log. -/
def add_wikipedia_title (ga : String → List Anchor) (qp : String → String)
    (st : PState) : Option (PState × List Nat) :=
  if (st.fs path_title).isSome then some (st, [])
  else
    (load path_raw st).map (fun st1 =>
      let df := reset_titles st1.dataset_df
      let st2 := { st1 with dataset_df := df }
      let p := title_loop ga qp (List.range df.length) st2
      (save path_title p.1, p.2))

/-- One iteration of the `for index, row in self.dataset_df.iterrows()` loop
of `__add_wikipedia_page`.  `iterrows` yields a fresh `Series` copy of each
row, so the assignment `row["wikipedia_page"] = pages[title]` mutates that
detached copy and never the owning table.  The first component is the row as
the owning table keeps it; the second is the detached copy after the body
ran (it is discarded when the iteration moves on). -/
def iterrows_page_step (pages : String → Option String) (r : Row) : Row × Row :=
  let rowCopy := r
  let rowCopy :=
    if r.wikipedia_title = "" then rowCopy
    else
      match pages r.wikipedia_title with
      | none => rowCopy
      | some page => { rowCopy with wikipedia_page := page }
  (r, rowCopy)

/-- `Stocks.__add_wikipedia_page`.  Returns immediately when the page file
exists; otherwise loads the title file, obtains the title-to-text mapping
from the external collaborator `Wikipedia.select_pages` (parameter `pages`;
`title not in pages` is `pages title = none`), adds an empty
`wikipedia_page` column, runs the per-row loop — whose writes land in the
detached row copies — and saves once at the end. -/
def add_wikipedia_page (pages : String → Option String) (st : PState) :
    Option PState :=
  if (st.fs path_page).isSome then some st
  else
    (load path_title st).map (fun st1 =>
      let df := st1.dataset_df.map (fun r => { r with wikipedia_page := "" })
      let df := df.map (fun r => (iterrows_page_step pages r).1)
      save path_page { st1 with dataset_df := df })

/-- Match the literal prefix (first argument) against the front of the text,
returning the rest of the text on success. -/
def dropLiteral : List Char → List Char → Option (List Char)
  | [], s => some s
  | _ :: _, [] => none
  | c :: cs, x :: xs => if x = c then dropLiteral cs xs else none

/-- The lazy part `(.*?)\]\]` of the pattern: consume characters up to the
first `]]`, failing on a newline first (`.` does not match `\n`) or at end
of input; returns the captured characters and the rest after `]]`. -/
def lazyBody : List Char → Option (List Char × List Char)
  | ']' :: ']' :: rest => some ([], rest)
  | c :: rest =>
    if c = '\n' then none
    else (lazyBody rest).map (fun p => (c :: p.1, p.2))
  | [] => none

/-- `re.findall(r"\[\[Category:(.*?)\]\]", text)`: scan left to right; at
each position try the literal `[[Category:` followed by the lazy capture; on
success emit the capture and resume after the match, otherwise advance one
character.  Each step consumes at least one character, so fuel equal to the
text length suffices. -/
def findall_category_aux : Nat → List Char → List String
  | 0, _ => []
  | _, [] => []
  | fuel + 1, c :: cs =>
    match dropLiteral "[[Category:".data (c :: cs) with
    | some afterLit =>
      match lazyBody afterLit with
      | some (body, rest) => String.mk body :: findall_category_aux fuel rest
      | none => findall_category_aux fuel cs
    | none => findall_category_aux fuel cs

def findall_category (s : String) : List String :=
  findall_category_aux s.length s.data

/-- Lowercase hexadecimal digit, as Python's `"\u%04x"` formatting uses. -/
def hexDigit (n : Nat) : Char :=
  if n < 10 then Char.ofNat (48 + n) else Char.ofNat (87 + n)

/-- A `\uXXXX` escape for a code unit below `0x10000`. -/
def uEscape (n : Nat) : String :=
  String.mk ['\\', 'u', hexDigit (n / 4096 % 16), hexDigit (n / 256 % 16),
    hexDigit (n / 16 % 16), hexDigit (n % 16)]

/-- `json.dumps` escaping of one character with the default
`ensure_ascii=True`: the named short escapes, `\uXXXX` for other characters
outside the printable ASCII range `0x20`–`0x7e`, surrogate pairs above
`0xffff`, and the character itself otherwise. -/
def jsonEscapeChar (c : Char) : String :=
  if c = '\\' then "\\\\"
  else if c = '"' then "\\\""
  else if c = '\n' then "\\n"
  else if c = '\t' then "\\t"
  else if c = '\r' then "\\r"
  else if c = Char.ofNat 8 then "\\b"
  else if c = Char.ofNat 12 then "\\f"
  else if c.toNat < 32 ∨ 126 < c.toNat then
    if c.toNat < 65536 then uEscape c.toNat
    else
      uEscape (55296 + (c.toNat - 65536) / 1024) ++
        uEscape (56320 + (c.toNat - 65536) % 1024)
  else String.singleton c

def jsonDumpString (s : String) : String :=
  "\"" ++ String.join (s.data.map jsonEscapeChar) ++ "\""

/-- `json.dumps` of a list of strings with the default separators:
`'["a", "b"]'`, and `"[]"` for the empty list. -/
def json_dumps (l : List String) : String :=
  "[" ++ String.intercalate ", " (l.map jsonDumpString) ++ "]"

/-- Modelled from the spec: the `expected_columns` attribute lives in the
`KnowledgeGraph` base class, whose source is not part of this file's input;
the spec's data model (section 3) lists exactly the fields of `Row`
(`symbol`, `security`, `country`, `gics_sector`, `gics_sub_industry`,
`wikipedia_title`, `wikipedia_page`, `categories`), so the final projection
`self.dataset_df[self.expected_columns]` keeps every field and is the
identity on a row. -/
def select_expected_columns (r : Row) : Row := r

/-- `Stocks.__add_relationships`.  Returns immediately when the final file
exists; otherwise loads the page file, adds an empty `categories` column,
stores `json.dumps(re.findall(pattern, text))` for every row with non-empty
page text (rows with empty text are skipped and keep `""`), projects to the
expected columns and saves. -/
def add_relationships (st : PState) : Option PState :=
  if (st.fs path_final).isSome then some st
  else
    (load path_page st).map (fun st1 =>
      let df := st1.dataset_df.map (fun r => { r with categories := "" })
      let df := df.map (fun r =>
        if r.wikipedia_page = "" then r
        else { r with categories := json_dumps (findall_category r.wikipedia_page) })
      let df := df.map select_expected_columns
      save path_final { st1 with dataset_df := df })

/-- Decoder used to state the round-trip fact about stored `categories`
values: consume spaces. -/
def skipSpaces : List Char → List Char
  | ' ' :: rest => skipSpaces rest
  | s => s

/-- Decoder: the body of a JSON string after its opening quote, handling the
escapes the encoder emits for the examples at hand; returns the decoded
characters and the rest after the closing quote. -/
def jsonStringBody : List Char → Option (List Char × List Char)
  | '\\' :: '"' :: rest => (jsonStringBody rest).map (fun p => ('"' :: p.1, p.2))
  | '\\' :: '\\' :: rest => (jsonStringBody rest).map (fun p => ('\\' :: p.1, p.2))
  | '\\' :: 'n' :: rest => (jsonStringBody rest).map (fun p => ('\n' :: p.1, p.2))
  | '\\' :: 't' :: rest => (jsonStringBody rest).map (fun p => ('\t' :: p.1, p.2))
  | '\\' :: 'r' :: rest => (jsonStringBody rest).map (fun p => ('\r' :: p.1, p.2))
  | '\\' :: _ :: _ => none
  | '\\' :: [] => none
  | '"' :: rest => some ([], rest)
  | c :: rest => (jsonStringBody rest).map (fun p => (c :: p.1, p.2))
  | [] => none

/-- Decoder: comma-separated JSON strings up to the closing bracket. -/
def jsonItems : Nat → List Char → Option (List String)
  | 0, _ => none
  | fuel + 1, s =>
    match skipSpaces s with
    | '"' :: rest =>
      match jsonStringBody rest with
      | none => none
      | some (body, rest2) =>
        match skipSpaces rest2 with
        | ',' :: rest3 => (jsonItems fuel rest3).map (String.mk body :: ·)
        | ']' :: rest4 =>
          if skipSpaces rest4 = [] then some [String.mk body] else none
        | _ => none
    | _ => none

/-- Decoder for a JSON array of strings, inverse to `json_dumps` on the
values this development evaluates it at. -/
def json_parse_string_array (s : String) : Option (List String) :=
  match skipSpaces s.data with
  | '[' :: rest =>
    match skipSpaces rest with
    | ']' :: rest2 => if skipSpaces rest2 = [] then some [] else none
    | _ => jsonItems s.length rest
  | _ => none

/-! Definitional reductions of `load`/`save` at the four stage paths (the
extension dispatch evaluates). -/

lemma fsWrite_self (fs : String → Option Table) (p : String) (t : Table) :
    fsWrite fs p t p = some t := by
  simp [fsWrite]

lemma load_raw_def (st : PState) :
    load path_raw st = (st.fs path_raw).map (fun df => { st with dataset_df := df }) := rfl

lemma load_title_def (st : PState) :
    load path_title st = (st.fs path_title).map (fun df => { st with dataset_df := df }) := rfl

lemma load_page_def (st : PState) :
    load path_page st = (st.fs path_page).map (fun df => { st with dataset_df := df }) := rfl

lemma save_raw_def (st : PState) :
    save path_raw st = { st with fs := fsWrite st.fs path_raw st.dataset_df } := rfl

lemma save_title_def (st : PState) :
    save path_title st = { st with fs := fsWrite st.fs path_title st.dataset_df } := rfl

lemma save_page_def (st : PState) :
    save path_page st = { st with fs := fsWrite st.fs path_page st.dataset_df } := rfl

lemma save_final_def (st : PState) :
    save path_final st = { st with fs := fsWrite st.fs path_final st.dataset_df } := rfl

lemma download_fs_raw (A B : Table) (st : PState) (h : st.fs path_raw = none) :
    (download A B st).fs path_raw = some (merged_table A B) := by
  simp [download, h, save_raw_def, fsWrite_self]

/-! Deduplication keeps, per symbol, exactly the first matching row. -/

lemma filter_drop_duplicates_from (s : String) (l : Table) :
    ∀ seen : List String,
      (drop_duplicates_from seen l).filter (fun r => r.symbol == s)
        = if s ∈ seen then [] else (l.filter (fun r => r.symbol == s)).take 1 := by
  induction l with
  | nil => intro seen; simp [drop_duplicates_from]
  | cons r rs ih =>
    intro seen
    simp only [drop_duplicates_from]
    by_cases hmem : r.symbol ∈ seen
    · rw [if_pos hmem, ih seen]
      by_cases hs : s ∈ seen
      · simp [hs]
      · have hne : (r.symbol == s) = false := by
          simp only [beq_eq_false_iff_ne, ne_eq]
          intro he; exact hs (he ▸ hmem)
        simp [hs, List.filter_cons, hne]
    · rw [if_neg hmem]
      by_cases hrs : r.symbol = s
      · have hbeq : (r.symbol == s) = true := beq_iff_eq.mpr hrs
        have hs : s ∉ seen := fun h => hmem (hrs ▸ h)
        rw [List.filter_cons, hbeq, ih (r.symbol :: seen)]
        have : s ∈ r.symbol :: seen := by rw [hrs]; exact List.mem_cons_self _ _
        simp [hs, this, List.filter_cons, hbeq]
      · have hbeq : (r.symbol == s) = false := by
          simp only [beq_eq_false_iff_ne, ne_eq]; exact hrs
        have hmem' : s ∈ r.symbol :: seen ↔ s ∈ seen := by
          constructor
          · intro h
            rcases List.mem_cons.mp h with h' | h'
            · exact absurd h'.symm hrs
            · exact h'
          · exact fun h => List.mem_cons_of_mem _ h
        rw [List.filter_cons, hbeq, ih (r.symbol :: seen)]
        by_cases hs : s ∈ seen
        · simp [hs, hmem'.mpr hs]
        · simp only [if_neg hs, if_neg (fun h => hs (hmem'.mp h))]
          simp [List.filter_cons, hbeq]

lemma filter_take_one_eq_find_toList (p : Row → Bool) (l : Table) :
    (l.filter p).take 1 = (l.find? p).toList := by
  induction l with
  | nil => simp
  | cons r rs ih =>
    by_cases h : p r
    · simp [List.filter_cons, List.find?_cons, h]
    · simp [List.filter_cons, List.find?_cons, h, ih]

lemma filter_sort_values_perm (p : Row → Bool) (l : Table) :
    ((sort_values l).filter p).Perm (l.filter p) :=
  (List.perm_insertionSort rowLe l).filter p

/-- C9: for every path ending with neither `.csv` nor `.pkl`, `__load`
leaves the in-memory table unchanged, `__save` writes no file, and neither
raises: both fall through their `if`/`elif` with no `else` branch. -/
theorem load_save_unknown_extension (path : String) (st : PState)
    (h1 : ends_with path ".csv" = false) (h2 : ends_with path ".pkl" = false) :
    load path st = some st ∧ save path st = st := by
  constructor
  · simp [load, h1, h2]
  · simp [save, h1, h2]

def st_empty : PState := ⟨fun _ => none, []⟩

theorem load_save_unknown_extension_witness :
    (ends_with "data/stocks.json" ".csv" = false)
    ∧ (ends_with "data/stocks.json" ".pkl" = false)
    ∧ (load "data/stocks.json" st_empty = some st_empty
       ∧ save "data/stocks.json" st_empty = st_empty) :=
  ⟨by decide, by decide,
    load_save_unknown_extension "data/stocks.json" st_empty (by decide) (by decide)⟩

/-- C4: every stage (`__download`, `__add_wikipedia_title`,
`__add_wikipedia_page`, `__add_relationships`) starts with
`if os.path.exists(path_tgt): return`, so whenever its output file is
present the invocation changes neither the filesystem nor the in-memory
table (and the title stage performs no search). -/
theorem stage_noop_when_output_exists (nasdaq sp500 : Table)
    (ga : String → List Anchor) (qp : String → String)
    (pages : String → Option String) (st : PState) :
    ((st.fs path_raw).isSome → download nasdaq sp500 st = st)
    ∧ ((st.fs path_title).isSome → add_wikipedia_title ga qp st = some (st, []))
    ∧ ((st.fs path_page).isSome → add_wikipedia_page pages st = some st)
    ∧ ((st.fs path_final).isSome → add_relationships st = some st) := by
  refine ⟨fun h => ?_, fun h => ?_, fun h => ?_, fun h => ?_⟩
  · simp [download, h]
  · simp [add_wikipedia_title, h]
  · simp [add_wikipedia_page, h]
  · simp [add_relationships, h]

def st_full : PState := ⟨fun _ => some [], []⟩

theorem stage_noop_when_output_exists_witness :
    download [] [] st_full = st_full
    ∧ add_wikipedia_title (fun _ => []) id st_full = some (st_full, [])
    ∧ add_wikipedia_page (fun _ => none) st_full = some st_full
    ∧ add_relationships st_full = some st_full := by
  have h := stage_noop_when_output_exists [] [] (fun _ => []) id (fun _ => none) st_full
  exact ⟨h.1 rfl, h.2.1 rfl, h.2.2.1 rfl, h.2.2.2 rfl⟩

/-- C3: when the two fetcher outputs share a symbol, the table that
`__download` builds and persists has exactly one row with that symbol, and
it is the first row of the first-listed input (NASDAQ) carrying it —
`drop_duplicates(keep="first")` on the concatenation in which the NASDAQ
rows come first. -/
theorem merge_dedup_first_wins (A B : Table) (s : String) (st : PState)
    (h0 : st.fs path_raw = none)
    (hA : (A.map Row.symbol).contains s = true)
    (_hB : (B.map Row.symbol).contains s = true) :
    (download A B st).fs path_raw = some (merged_table A B)
    ∧ (merged_table A B).filter (fun r => r.symbol == s)
        = (A.find? (fun r => r.symbol == s)).toList
    ∧ ((merged_table A B).filter (fun r => r.symbol == s)).length = 1 := by
  have hmemA : ∃ r ∈ A, (fun r : Row => r.symbol == s) r = true := by
    have : s ∈ A.map Row.symbol := by
      simpa using hA
    rcases List.mem_map.mp this with ⟨r, hr, hrs⟩
    exact ⟨r, hr, beq_iff_eq.mpr hrs⟩
  have hsome : (A.find? (fun r => r.symbol == s)).isSome := by
    rw [List.find?_isSome]
    exact hmemA
  obtain ⟨r₀, hr₀⟩ := Option.isSome_iff_exists.mp hsome
  have hconcat : (A ++ B).find? (fun r => r.symbol == s) = some r₀ := by
    rw [List.find?_append, hr₀]
    rfl
  have hdd : (drop_duplicates (A ++ B)).filter (fun r => r.symbol == s) = [r₀] := by
    rw [drop_duplicates, filter_drop_duplicates_from s (A ++ B) []]
    rw [if_neg (List.not_mem_nil s)]
    rw [filter_take_one_eq_find_toList, hconcat]
    rfl
  have heq : (merged_table A B).filter (fun r => r.symbol == s) = [r₀] := by
    have hperm : ((merged_table A B).filter (fun r => r.symbol == s)).Perm [r₀] := by
      rw [merged_table]
      exact hdd ▸ filter_sort_values_perm _ _
    exact List.perm_singleton.mp hperm
  refine ⟨download_fs_raw A B st h0, ?_, ?_⟩
  · rw [heq, hr₀]
    rfl
  · rw [heq]
    rfl

def row_aapl : Row :=
  ⟨"AAPL", "Apple Inc.", "United States", "Information Technology",
    "Technology Hardware", "", "", ""⟩

theorem merge_dedup_first_wins_witness :
    (([row_aapl].map Row.symbol).contains "AAPL" = true)
    ∧ ((download [row_aapl] [row_aapl] st_empty).fs path_raw
          = some (merged_table [row_aapl] [row_aapl])
       ∧ (merged_table [row_aapl] [row_aapl]).filter (fun r => r.symbol == "AAPL")
          = ([row_aapl].find? (fun r => r.symbol == "AAPL")).toList
       ∧ ((merged_table [row_aapl] [row_aapl]).filter
            (fun r => r.symbol == "AAPL")).length = 1) :=
  ⟨by decide,
    merge_dedup_first_wins [row_aapl] [row_aapl] "AAPL" st_empty rfl (by decide) (by decide)⟩

/-- C7: after `__download` runs (raw file absent beforehand), the persisted
table is `merged_table`, whose `symbol` column is non-decreasing because the
stage ends with `sort_values(by=["symbol"])`. -/
theorem merge_symbols_sorted (A B : Table) (st : PState)
    (h : st.fs path_raw = none) :
    (download A B st).fs path_raw = some (merged_table A B)
    ∧ ((merged_table A B).map Row.symbol).Sorted (· ≤ ·) := by
  refine ⟨download_fs_raw A B st h, ?_⟩
  have hs : ((drop_duplicates (A ++ B)).insertionSort rowLe).Sorted rowLe :=
    List.sorted_insertionSort rowLe _
  exact List.pairwise_map.mpr hs

theorem merge_symbols_sorted_witness :
    (download [row_aapl] [row_aapl] st_empty).fs path_raw
        = some (merged_table [row_aapl] [row_aapl])
    ∧ ((merged_table [row_aapl] [row_aapl]).map Row.symbol).Sorted (· ≤ ·) :=
  merge_symbols_sorted [row_aapl] [row_aapl] st_empty rfl

/-! Fixtures and theorems for the page-fetch and category-extraction
stages. -/

def page_text_c1 : String := "[[Category:Tech]] page text"

def pages_c1 : String → Option String :=
  fun t => if t = "Apple Inc." then some page_text_c1 else none

def row_titled : Row :=
  ⟨"AAPL", "Apple Inc.", "United States", "Information Technology",
    "Technology Hardware", "Apple Inc.", "", ""⟩

def st_c1 : PState :=
  ⟨fun p => if p = path_title then some [row_titled] else none, []⟩

/-- C1: the page-fetch stage is meant to store the mapped page text in the
owning table, but the loop writes into the detached `iterrows` row copy:
on a table with one row whose non-empty title is a key of the mapping, the
write reaches the copy (second conjunct) while the owning table and the
persisted file keep `wikipedia_page = ""` for every row (third conjunct). -/
theorem page_fetch_write_lost :
    pages_c1 row_titled.wikipedia_title = some page_text_c1
    ∧ ((iterrows_page_step pages_c1 row_titled).2).wikipedia_page = page_text_c1
    ∧ (add_wikipedia_page pages_c1 st_c1).map
        (fun o => (o.dataset_df.map Row.wikipedia_page,
          (o.fs path_page).map (fun t => t.map Row.wikipedia_page)))
      = some ([""], some [""]) :=
  ⟨rfl, rfl, rfl⟩

/-- The page text of the claim C5 example. -/
def example_page : String := "...[[Category:Tech]] foo [[Category:NASDAQ]]..."

/-- The table `__add_relationships` builds from the loaded page table: the
empty `categories` column, the per-row loop, and the final projection. -/
def relationships_table (df : Table) : Table :=
  ((df.map (fun r => { r with categories := "" })).map
    (fun r =>
      if r.wikipedia_page = "" then r
      else { r with categories := json_dumps (findall_category r.wikipedia_page) })).map
    select_expected_columns

lemma add_relationships_run (st : PState) (df : Table)
    (h1 : st.fs path_final = none) (h2 : st.fs path_page = some df) :
    add_relationships st
      = some (save path_final { st with dataset_df := relationships_table df }) := by
  simp [add_relationships, h1, h2, load_page_def, relationships_table]

/-- C5: in the category-extraction stage, every row with non-empty page
text ends with `categories` equal to the JSON encoding of all
non-overlapping `[[Category:...]]` matches in order of appearance, both in
the in-memory table and in the persisted final file; on the claim's example
text the stored value decodes to `["Tech", "NASDAQ"]` in that order. -/
theorem categories_json_of_matches (st : PState) (df : Table) (i : Nat) (r : Row)
    (h1 : st.fs path_final = none) (h2 : st.fs path_page = some df)
    (h3 : df[i]? = some r) (h4 : r.wikipedia_page ≠ "") :
    ((add_relationships st).map
        (fun o => (o.dataset_df[i]?).map Row.categories)
      = some (some (json_dumps (findall_category r.wikipedia_page))))
    ∧ ((add_relationships st).map
        (fun o => (o.fs path_final).map (fun t => (t[i]?).map Row.categories))
      = some (some (some (json_dumps (findall_category r.wikipedia_page)))))
    ∧ findall_category example_page = ["Tech", "NASDAQ"]
    ∧ json_parse_string_array (json_dumps (findall_category example_page))
        = some ["Tech", "NASDAQ"] := by
  rw [add_relationships_run st df h1 h2]
  refine ⟨?_, ?_, by decide, by decide⟩
  · simp [save_final_def, relationships_table, List.getElem?_map, h3, h4,
      select_expected_columns]
  · simp [save_final_def, fsWrite_self, relationships_table, List.getElem?_map,
      h3, h4, select_expected_columns]

def row_page_c5 : Row :=
  ⟨"AAPL", "Apple Inc.", "United States", "Information Technology",
    "Technology Hardware", "Apple Inc.", example_page, ""⟩

def st_c5 : PState :=
  ⟨fun p => if p = path_page then some [row_page_c5] else none, []⟩

theorem categories_json_of_matches_witness :
    row_page_c5.wikipedia_page ≠ ""
    ∧ ((add_relationships st_c5).map
        (fun o => (o.dataset_df[0]?).map Row.categories)
      = some (some "[\"Tech\", \"NASDAQ\"]")) := by
  have h := categories_json_of_matches st_c5 [row_page_c5] 0 row_page_c5
    rfl rfl rfl (by decide)
  exact ⟨by decide, h.1.trans (by decide)⟩

/-- C6: in the category-extraction stage, a row whose page text is empty is
skipped by the loop (`if text == "": continue`) and keeps the freshly added
empty-string `categories` value — the empty string, not the JSON encoding
`"[]"` of an empty array. -/
theorem categories_empty_on_empty_page (st : PState) (df : Table) (i : Nat) (r : Row)
    (h1 : st.fs path_final = none) (h2 : st.fs path_page = some df)
    (h3 : df[i]? = some r) (h4 : r.wikipedia_page = "") :
    ((add_relationships st).map
        (fun o => (o.dataset_df[i]?).map Row.categories) = some (some ""))
    ∧ ((add_relationships st).map
        (fun o => (o.fs path_final).map (fun t => (t[i]?).map Row.categories))
      = some (some (some "")))
    ∧ json_dumps [] = "[]"
    ∧ ("" : String) ≠ json_dumps [] := by
  rw [add_relationships_run st df h1 h2]
  refine ⟨?_, ?_, rfl, by decide⟩
  · simp [save_final_def, relationships_table, List.getElem?_map, h3, h4,
      select_expected_columns]
  · simp [save_final_def, fsWrite_self, relationships_table, List.getElem?_map,
      h3, h4, select_expected_columns]

def row_nopage_c6 : Row :=
  ⟨"ZZZZ", "Empty Corp", "United States", "Industrials", "Machinery",
    "", "", "stale"⟩

def st_c6 : PState :=
  ⟨fun p => if p = path_page then some [row_nopage_c6] else none, []⟩

theorem categories_empty_on_empty_page_witness :
    row_nopage_c6.wikipedia_page = ""
    ∧ ((add_relationships st_c6).map
        (fun o => (o.dataset_df[0]?).map Row.categories) = some (some "")) := by
  have h := categories_empty_on_empty_page st_c6 [row_nopage_c6] 0 row_nopage_c6
    rfl rfl rfl rfl
  exact ⟨rfl, h.1⟩

/-! Unfolding equations of `title_loop`, one per branch of the loop body. -/

section TitleLoopLemmas

variable (ga : String → List Anchor) (qp : String → String)

lemma title_loop_cons_none {st : PState} {i : Nat} (is : List Nat)
    (h : st.dataset_df[i]? = none) :
    title_loop ga qp (i :: is) st = title_loop ga qp is st := by
  simp [title_loop, h]

lemma title_loop_cons_lt {st : PState} {i : Nat} {r : Row} (is : List Nat)
    (h : st.dataset_df[i]? = some r) (h6 : i < 6) :
    title_loop ga qp (i :: is) st = title_loop ga qp is st := by
  simp [title_loop, h, h6]

lemma title_loop_cons_filled {st : PState} {i : Nat} {r : Row} (is : List Nat)
    (h : st.dataset_df[i]? = some r) (h6 : ¬ i < 6)
    (ht : r.wikipedia_title ≠ "") :
    title_loop ga qp (i :: is) st = title_loop ga qp is st := by
  simp [title_loop, h, h6, ht]

lemma title_loop_cons_nomatch {st : PState} {i : Nat} {r : Row} (is : List Nat)
    (h : st.dataset_df[i]? = some r) (h6 : ¬ i < 6)
    (ht : r.wikipedia_title = "")
    (hm : wikipedia_hrefs (ga (google_url qp r.security)) = []) :
    title_loop ga qp (i :: is) st =
      ((title_loop ga qp is st).1, i :: (title_loop ga qp is st).2) := by
  simp [title_loop, h, h6, ht, hm]

/-- The state after a successful resolution at index `i`: the title derived
from `href` is stored at `i` and the table is saved to the title file. -/
def assign_title (st : PState) (i : Nat) (r : Row) (href : String) : PState :=
  save path_title
    { st with
      dataset_df := st.dataset_df.set i { r with wikipedia_title := wikipedia_name_of_href href } }

lemma assign_title_df (st : PState) (i : Nat) (r : Row) (href : String) :
    (assign_title st i r href).dataset_df
      = st.dataset_df.set i { r with wikipedia_title := wikipedia_name_of_href href } := rfl

lemma title_loop_cons_match {st : PState} {i : Nat} {r : Row} {href : String}
    {rest : List String} (is : List Nat)
    (h : st.dataset_df[i]? = some r) (h6 : ¬ i < 6)
    (ht : r.wikipedia_title = "")
    (hm : wikipedia_hrefs (ga (google_url qp r.security)) = href :: rest) :
    title_loop ga qp (i :: is) st =
      ((title_loop ga qp is (assign_title st i r href)).1,
        i :: (title_loop ga qp is (assign_title st i r href)).2) := by
  simp [title_loop, h, h6, ht, hm, assign_title, save_title_def]

/-- The loop's behaviour as a function of the table `df₀` it starts from:
the search log is the in-order filter of the visited indices by
`searched_pred`, and the stored row at each index is `loop_row_result`.
The invariant that the rows still to be visited agree with `df₀` holds
because every assignment targets the index currently being visited. -/
lemma title_loop_spec (df₀ : Table) :
    ∀ (is : List Nat) (st : PState), is.Nodup →
      (∀ j ∈ is, st.dataset_df[j]? = df₀[j]?) →
      (title_loop ga qp is st).2 = is.filter (searched_pred df₀)
      ∧ ∀ j : Nat, ((title_loop ga qp is st).1).dataset_df[j]? =
          if j ∈ is then loop_row_result ga qp df₀ j else st.dataset_df[j]? := by
  intro is
  induction is with
  | nil =>
    intro st _ _
    exact ⟨rfl, fun j => by simp [title_loop]⟩
  | cons i is ih =>
    intro st hnd hinv
    have hi : st.dataset_df[i]? = df₀[i]? := hinv i (List.mem_cons_self _ _)
    have hini : i ∉ is := (List.nodup_cons.mp hnd).1
    have hnd' : is.Nodup := (List.nodup_cons.mp hnd).2
    have hinv' : ∀ j ∈ is, st.dataset_df[j]? = df₀[j]? :=
      fun j hj => hinv j (List.mem_cons_of_mem _ hj)
    cases hdf : df₀[i]? with
    | none =>
      have hst : st.dataset_df[i]? = none := hi.trans hdf
      have hrec := ih st hnd' hinv'
      rw [title_loop_cons_none ga qp is hst]
      refine ⟨?_, ?_⟩
      · rw [hrec.1, List.filter_cons]
        have : searched_pred df₀ i = false := by simp [searched_pred, hdf]
        simp [this]
      · intro j
        rw [hrec.2 j]
        by_cases hji : j = i
        · subst hji
          simp [hini, loop_row_result, hdf, hst]
        · simp [List.mem_cons, hji]
    | some r =>
      have hst : st.dataset_df[i]? = some r := hi.trans hdf
      by_cases h6 : i < 6
      · have hrec := ih st hnd' hinv'
        rw [title_loop_cons_lt ga qp is hst h6]
        refine ⟨?_, ?_⟩
        · rw [hrec.1, List.filter_cons]
          have : searched_pred df₀ i = false := by
            simp [searched_pred, hdf]
            omega
          simp [this]
        · intro j
          rw [hrec.2 j]
          by_cases hji : j = i
          · subst hji
            have hcond : ¬ (6 ≤ j ∧ r.wikipedia_title = "") := by
              rintro ⟨h', _⟩; omega
            simp [hini, loop_row_result, hdf, hst, hcond]
          · simp [List.mem_cons, hji]
      · by_cases ht : r.wikipedia_title = ""
        · cases hm : wikipedia_hrefs (ga (google_url qp r.security)) with
          | nil =>
            have hrec := ih st hnd' hinv'
            rw [title_loop_cons_nomatch ga qp is hst h6 ht hm]
            refine ⟨?_, ?_⟩
            · show i :: (title_loop ga qp is st).2 = _
              rw [hrec.1, List.filter_cons]
              have : searched_pred df₀ i = true := by
                simp [searched_pred, hdf, ht]
                omega
              simp [this]
            · intro j
              show (title_loop ga qp is st).1.dataset_df[j]? = _
              rw [hrec.2 j]
              by_cases hji : j = i
              · subst hji
                have hcond : 6 ≤ j ∧ r.wikipedia_title = "" := ⟨by omega, ht⟩
                simp [hini, loop_row_result, hdf, hst, hcond, row_search_result, hm]
              · simp [List.mem_cons, hji]
          | cons href rest =>
            have hilen : i < st.dataset_df.length :=
              (List.getElem?_eq_some.mp hst).1
            rw [title_loop_cons_match ga qp is hst h6 ht hm]
            have hdf1 := assign_title_df st i r href
            have hinv1 : ∀ j ∈ is,
                (assign_title st i r href).dataset_df[j]? = df₀[j]? := by
              intro j hj
              have hij : i ≠ j := fun he => hini (he ▸ hj)
              rw [hdf1, List.getElem?_set_ne hij]
              exact hinv' j hj
            have hrec := ih _ hnd' hinv1
            refine ⟨?_, ?_⟩
            · show i :: _ = _
              rw [hrec.1, List.filter_cons]
              have : searched_pred df₀ i = true := by
                simp [searched_pred, hdf, ht]
                omega
              simp [this]
            · intro j
              show (title_loop ga qp is _).1.dataset_df[j]? = _
              rw [hrec.2 j]
              by_cases hji : j = i
              · subst hji
                have hcond : 6 ≤ j ∧ r.wikipedia_title = "" := ⟨by omega, ht⟩
                rw [if_neg hini, hdf1, List.getElem?_set_self hilen]
                simp [List.mem_cons, loop_row_result, hdf, hcond,
                  row_search_result, hm]
              · by_cases hjs : j ∈ is
                · simp [List.mem_cons, hjs]
                · rw [if_neg hjs, if_neg (by simp [List.mem_cons, hji, hjs]),
                    hdf1, List.getElem?_set_ne (fun he => hji he.symm)]
        · have hrec := ih st hnd' hinv'
          rw [title_loop_cons_filled ga qp is hst h6 ht]
          refine ⟨?_, ?_⟩
          · rw [hrec.1, List.filter_cons]
            have : searched_pred df₀ i = false := by
              simp [searched_pred, hdf, ht]
            simp [this]
          · intro j
            rw [hrec.2 j]
            by_cases hji : j = i
            · subst hji
              have hcond : ¬ (6 ≤ j ∧ r.wikipedia_title = "") := by
                rintro ⟨_, h'⟩; exact ht h'
              simp [hini, loop_row_result, hdf, hst, hcond]
            · simp [List.mem_cons, hji]

end TitleLoopLemmas

/-- `title_loop_spec` specialised to a full pass over the table the loop
starts from (the stage always runs it over `List.range` of the length). -/
lemma title_loop_range (ga : String → List Anchor) (qp : String → String)
    (D : Table) (fs₀ : String → Option Table) :
    (title_loop ga qp (List.range D.length) ⟨fs₀, D⟩).2
        = (List.range D.length).filter (searched_pred D)
    ∧ ∀ j : Nat, ((title_loop ga qp (List.range D.length) ⟨fs₀, D⟩).1).dataset_df[j]? =
        if j ∈ List.range D.length then loop_row_result ga qp D j else D[j]? :=
  title_loop_spec ga qp D (List.range D.length) ⟨fs₀, D⟩
    (List.nodup_range _) (fun _ _ => rfl)

/-- C8: the resolution loop visits the index positions in table order; a
row whose index is below six or whose title is already non-empty triggers
neither a search nor an assignment (its stored row is exactly the input
row), and every other row is searched — the log is the in-order filter of
the index range by `searched_pred`. -/
theorem title_loop_skip_discipline (ga : String → List Anchor)
    (qp : String → String) (df₀ : Table) (fs₀ : String → Option Table) :
    (title_loop ga qp (List.range df₀.length) ⟨fs₀, df₀⟩).2
        = (List.range df₀.length).filter (searched_pred df₀)
    ∧ ∀ i r, df₀[i]? = some r → (i < 6 ∨ r.wikipedia_title ≠ "") →
        ((title_loop ga qp (List.range df₀.length) ⟨fs₀, df₀⟩).1).dataset_df[i]?
          = some r := by
  have h := title_loop_range ga qp df₀ fs₀
  refine ⟨h.1, ?_⟩
  intro i r hr hskip
  rw [h.2 i]
  by_cases hmem : i ∈ List.range df₀.length
  · rw [if_pos hmem]
    have hcond : ¬ (6 ≤ i ∧ r.wikipedia_title = "") := by
      rcases hskip with h' | h'
      · rintro ⟨h6, _⟩; omega
      · rintro ⟨_, ht⟩; exact h' ht
    simp [loop_row_result, hr, hcond]
  · rw [if_neg hmem]
    exact hr

def ga_none : String → List Anchor := fun _ => []

def row_seed (s : String) : Row := ⟨s, s, "United States", "", "", "", "", ""⟩

def df_c8 : Table :=
  [row_seed "A0", row_seed "A1", row_seed "A2", row_seed "A3", row_seed "A4",
    row_seed "A5", row_titled]

theorem title_loop_skip_discipline_witness :
    df_c8[6]? = some row_titled
    ∧ (title_loop ga_none id (List.range df_c8.length) ⟨fun _ => none, df_c8⟩).2 = []
    ∧ ((title_loop ga_none id (List.range df_c8.length)
        ⟨fun _ => none, df_c8⟩).1).dataset_df[6]? = some row_titled := by
  have h := title_loop_skip_discipline ga_none id df_c8 (fun _ => none)
  exact ⟨rfl, h.1.trans (by decide), h.2 6 row_titled rfl (Or.inr (by decide))⟩

/-- The stored row of the title stage as a pure function of the table the
loop starts from, position by position. -/
def title_result_aux (ga : String → List Anchor) (qp : String → String) :
    Nat → Table → Table
  | _, [] => []
  | i, r :: rs =>
    (if 6 ≤ i ∧ r.wikipedia_title = "" then row_search_result ga qp r else r)
      :: title_result_aux ga qp (i + 1) rs

def title_result (ga : String → List Anchor) (qp : String → String)
    (D : Table) : Table :=
  title_result_aux ga qp 0 D

lemma title_result_aux_getElem? (ga : String → List Anchor)
    (qp : String → String) :
    ∀ (D : Table) (i j : Nat),
      (title_result_aux ga qp i D)[j]? = (D[j]?).map
        (fun r => if 6 ≤ i + j ∧ r.wikipedia_title = "" then
          row_search_result ga qp r else r) := by
  intro D
  induction D with
  | nil => intro i j; simp [title_result_aux]
  | cons r rs ih =>
    intro i j
    cases j with
    | zero => simp [title_result_aux]
    | succ j =>
      simp only [title_result_aux, List.getElem?_cons_succ]
      rw [ih (i + 1) j]
      have : i + 1 + j = i + (j + 1) := by omega
      rw [this]

lemma loop_row_result_eq_map (ga : String → List Anchor)
    (qp : String → String) (D : Table) (j : Nat) :
    loop_row_result ga qp D j = (D[j]?).map
      (fun r => if 6 ≤ j ∧ r.wikipedia_title = "" then
        row_search_result ga qp r else r) := by
  cases h : D[j]? with
  | none => simp [loop_row_result, h]
  | some r =>
    simp only [loop_row_result, h, Option.map_some']
    split
    · rfl
    · rfl

/-- The table the full loop pass stores, pointwise equal to
`title_result`. -/
lemma title_loop_range_df (ga : String → List Anchor) (qp : String → String)
    (D : Table) (fs₀ : String → Option Table) :
    ((title_loop ga qp (List.range D.length) ⟨fs₀, D⟩).1).dataset_df
      = title_result ga qp D := by
  apply List.ext_getElem?
  intro j
  rw [(title_loop_range ga qp D fs₀).2 j, title_result,
    title_result_aux_getElem? ga qp D 0 j]
  by_cases hmem : j ∈ List.range D.length
  · rw [if_pos hmem, loop_row_result_eq_map]
    simp
  · rw [if_neg hmem]
    have hlen : D.length ≤ j := by
      by_contra hlt
      exact hmem (List.mem_range.mpr (by omega))
    rw [List.getElem?_eq_none hlen]
    simp

lemma add_wikipedia_title_run (ga : String → List Anchor)
    (qp : String → String) (st : PState) (df₀ : Table)
    (h1 : st.fs path_title = none) (h2 : st.fs path_raw = some df₀) :
    add_wikipedia_title ga qp st
      = some (save path_title
          (title_loop ga qp (List.range (reset_titles df₀).length)
            ⟨st.fs, reset_titles df₀⟩).1,
        (title_loop ga qp (List.range (reset_titles df₀).length)
            ⟨st.fs, reset_titles df₀⟩).2) := by
  simp [add_wikipedia_title, h1, h2, load_raw_def]

/-- C10: whenever the title stage actually runs (its output file absent,
the raw file present), the table it iterates is the raw table with every
`wikipedia_title` reset to `""` — it loads `stocks.raw.csv`, never a
previously saved title file — so the search log is exactly the indices
`≥ 6` (the already-filled check never skips a row), and the title table it
persists is a pure function of the raw table alone. -/
theorem title_stage_reset_titles (ga : String → List Anchor)
    (qp : String → String) (st : PState) (df₀ : Table)
    (h1 : st.fs path_title = none) (h2 : st.fs path_raw = some df₀) :
    (add_wikipedia_title ga qp st).map Prod.snd
        = some ((List.range df₀.length).filter (fun i => decide (6 ≤ i)))
    ∧ (add_wikipedia_title ga qp st).map (fun o => o.1.fs path_title)
        = some (some (title_result ga qp (reset_titles df₀))) := by
  rw [add_wikipedia_title_run ga qp st df₀ h1 h2]
  constructor
  · rw [Option.map_some', (title_loop_range ga qp (reset_titles df₀) st.fs).1]
    have hlen : (reset_titles df₀).length = df₀.length := by
      simp [reset_titles]
    rw [hlen]
    congr 1
    apply List.filter_congr
    intro i hi
    have hilt : i < df₀.length := List.mem_range.mp hi
    have : ∃ r, df₀[i]? = some r :=
      ⟨df₀.get ⟨i, hilt⟩, List.getElem?_eq_some.mpr ⟨hilt, rfl⟩⟩
    rcases this with ⟨r, hr⟩
    have hreset : (reset_titles df₀)[i]? = some { r with wikipedia_title := "" } := by
      simp [reset_titles, List.getElem?_map, hr]
    simp [searched_pred, hreset]
  · rw [Option.map_some']
    rw [save_title_def]
    simp only [fsWrite_self]
    rw [title_loop_range_df ga qp (reset_titles df₀) st.fs]

def df_c2 : Table :=
  [row_seed "A0", row_seed "A1", row_seed "A2", row_seed "A3", row_seed "A4",
    row_seed "A5", row_seed "A6"]

def st_c2 : PState :=
  ⟨fun p => if p = path_raw then some df_c2 else none, []⟩

theorem title_stage_reset_titles_witness :
    st_c2.fs path_title = none
    ∧ st_c2.fs path_raw = some df_c2
    ∧ (add_wikipedia_title ga_none id st_c2).map Prod.snd = some [6]
    ∧ (add_wikipedia_title ga_none id st_c2).map (fun o => o.1.fs path_title)
        = some (some (title_result ga_none id (reset_titles df_c2))) := by
  have h := title_stage_reset_titles ga_none id st_c2 df_c2 rfl rfl
  exact ⟨rfl, rfl, h.1.trans (by decide), h.2⟩

/-- C2 (amended): a processed row whose search yields zero matching anchors
keeps `wikipedia_title = ""` (the loop `continue`s without assigning); the
run unconditionally persists the title file, and a subsequent invocation of
the stage on the resulting state returns immediately with an empty search
log — the row is retried only on a run whose title output file is absent. -/
theorem title_zero_match_kept_empty_no_retry (ga : String → List Anchor)
    (qp : String → String) (st : PState) (df₀ : Table) (i : Nat) (r : Row)
    (h1 : st.fs path_title = none) (h2 : st.fs path_raw = some df₀)
    (h3 : df₀[i]? = some r) (h4 : 6 ≤ i)
    (h5 : wikipedia_hrefs (ga (google_url qp r.security)) = []) :
    ((add_wikipedia_title ga qp st).map (fun o => o.1.dataset_df[i]?)
        = some (some { r with wikipedia_title := "" }))
    ∧ ((add_wikipedia_title ga qp st).map (fun o => (o.1.fs path_title).isSome)
        = some true)
    ∧ ((add_wikipedia_title ga qp st).bind (fun o => add_wikipedia_title ga qp o.1)
        = (add_wikipedia_title ga qp st).map (fun o => (o.1, []))) := by
  have hrun := add_wikipedia_title_run ga qp st df₀ h1 h2
  have hilt : i < df₀.length := (List.getElem?_eq_some.mp h3).1
  have hreset : (reset_titles df₀)[i]? = some { r with wikipedia_title := "" } := by
    simp [reset_titles, List.getElem?_map, h3]
  refine ⟨?_, ?_, ?_⟩
  · rw [hrun, Option.map_some']
    have hdf := (title_loop_range ga qp (reset_titles df₀) st.fs).2 i
    have hmem : i ∈ List.range (reset_titles df₀).length := by
      rw [List.mem_range]
      simpa [reset_titles] using hilt
    have : (save path_title
        (title_loop ga qp (List.range (reset_titles df₀).length)
          ⟨st.fs, reset_titles df₀⟩).1).dataset_df
        = (title_loop ga qp (List.range (reset_titles df₀).length)
          ⟨st.fs, reset_titles df₀⟩).1.dataset_df := rfl
    rw [this, hdf, if_pos hmem, loop_row_result]
    simp only [hreset]
    rw [if_pos ⟨h4, by simp⟩]
    simp [row_search_result, h5]
  · rw [hrun, Option.map_some', save_title_def]
    simp [fsWrite_self]
  · rw [hrun]
    have hsome : ((save path_title
        (title_loop ga qp (List.range (reset_titles df₀).length)
          ⟨st.fs, reset_titles df₀⟩).1).fs path_title).isSome = true := by
      rw [save_title_def]
      simp [fsWrite_self]
    simp only [Option.bind_some, Option.map_some']
    simp [add_wikipedia_title, hsome]

theorem title_zero_match_kept_empty_no_retry_witness :
    df_c2[6]? = some (row_seed "A6")
    ∧ wikipedia_hrefs (ga_none (google_url id (row_seed "A6").security)) = []
    ∧ ((add_wikipedia_title ga_none id st_c2).map (fun o => o.1.dataset_df[6]?)
        = some (some (row_seed "A6")))
    ∧ ((add_wikipedia_title ga_none id st_c2).bind
        (fun o => add_wikipedia_title ga_none id o.1)
        = (add_wikipedia_title ga_none id st_c2).map (fun o => (o.1, []))) := by
  have h := title_zero_match_kept_empty_no_retry ga_none id st_c2 df_c2 6
    (row_seed "A6") rfl rfl rfl (by decide) rfl
  exact ⟨rfl, rfl, h.1.trans (by decide), h.2.2⟩

/-- C2 (counterexample to the claim as stated): on a concrete raw table of
seven rows with a search that matches no anchors, the first invocation
searches row 6 and leaves its title empty, but the second invocation of the
stage performs no search at all — its loop does not run again over the
unresolved row, because the first run persisted the title file and the
stage returns at its existence check. -/
theorem title_retry_counterexample :
    ((add_wikipedia_title ga_none id st_c2).map
        (fun o => ((o.1.dataset_df[6]?).map Row.wikipedia_title, o.2))
      = some (some "", [6]))
    ∧ ((add_wikipedia_title ga_none id st_c2).bind
        (fun o => (add_wikipedia_title ga_none id o.1).map Prod.snd)
      = some []) :=
  ⟨rfl, rfl⟩

end Stocks
